import Mathlib

/-!
Shallow embedding of the tournament logic of `app.js` (KapselVM25).

Modelling conventions, each justified against the source:

* `Participant: { id, name, flagUrl }` — the cosmetic `flagUrl` field is
  never read by the tournament logic, so it is dropped.  `id` and `name`
  are the strings the logic branches on.
* JS point values are numbers entered through an `<input type="number">`;
  `renderRounds` normalises `NaN` to `undefined` before any logic runs, so
  a slot's `points` is either a number or `undefined`.  We model it as
  `Option Int` (`none` = `undefined`).
* `uid()` produces a random id suffix that no logic ever inspects (the only
  ids compared are participant ids, which come from the roster or from
  `makeByes`); generated match/round ids are modelled as the constants
  `"m"` / `"r"`, and `makeByes` drops the random suffix of its ids.
* `String.prototype.localeCompare` is modelled as lexicographic comparison
  of the code points (`Char` lists).  All concrete strings used in
  counterexamples/witnesses are same-case ASCII, where the two orders agree.
* `Array.prototype.sort` with a comparator `c` is a stable sort by the
  total preorder `c(a,b) <= 0`; it is modelled by `List.insertionSort`,
  which inserts an earlier element before later tied ones and is therefore
  stable in exactly the JS sense.
-/

structure Participant where
  id : String
  name : String
deriving DecidableEq, Repr

structure Slot where
  participant : Option Participant
  points : Option Int
deriving DecidableEq, Repr

structure Match where
  id : String
  slots : List Slot
  isComplete : Bool
deriving DecidableEq, Repr

/-- A round; the source field `matches` is spelled `matchList` because
`matches` is a reserved word in Lean. -/
structure Round where
  id : String
  name : String
  matchList : List Match
  computed : Bool
deriving DecidableEq, Repr

/-! ### String comparison (model of `localeCompare`) -/

/-- Lexicographic strict order on `Char` lists: the model of
`a.localeCompare(b) < 0` (code-point order; see file header). -/
def charListLt : List Char → List Char → Bool
  | _, [] => false
  | [], _ :: _ => true
  | a :: as, b :: bs => decide (a < b) || (decide (a = b) && charListLt as bs)

/-- `a.localeCompare(b) < 0` on strings. -/
def strLtB (a b : String) : Bool := charListLt a.data b.data

/-- `a.localeCompare(b) <= 0` on strings. -/
def strLeB (a b : String) : Bool := !(charListLt b.data a.data)

/-! ### Placement engine (`computePlacements`, app.js 81-105) -/

/-- The display name a slot contributes to the sort comparator:
`s.participant?.name || ""`. -/
def slotName (s : Slot) : String := (s.participant.map (·.name)).getD ""

/-- `s.participant?.id || ""`. -/
def slotId (s : Slot) : String := (s.participant.map (·.id)).getD ""

/-- Strict order on extended points, `undefined` playing `-Infinity`
(`s.points ?? -Infinity`). -/
def extLtB : Option Int → Option Int → Bool
  | none, none => false
  | none, some _ => true
  | some _, none => false
  | some x, some y => decide (x < y)

/-- The sort comparator of `computePlacements` as a `<=` test
(`comparator value ≤ 0`): points descending with `undefined` as
`-Infinity`, then name ascending, then id ascending.  Mirrors

```
const pa = a.slot.points ?? -Infinity; const pb = b.slot.points ?? -Infinity;
if (pb !== pa) return pb - pa;
const na = ..., nb = ...; if (na !== nb) return na.localeCompare(nb);
return (a.slot.participant?.id || "").localeCompare(b.slot.participant?.id || "");
```
-/
def slotLe (a b : Slot) : Bool :=
  if a.points ≠ b.points then extLtB b.points a.points
  else if slotName a ≠ slotName b then strLtB (slotName a) (slotName b)
  else strLeB (slotId a) (slotId b)

/-- The relation `computePlacements` sorts `{idx, slot}` pairs by (the
comparator ignores `idx`). -/
def slotRel (a b : Nat × Slot) : Prop := slotLe a.2 b.2 = true

instance : DecidableRel slotRel := fun _ _ => instDecidableEqBool _ _

/-- `s.participant && s.participant.name !== "BYE" && typeof s.points !== "number"`. -/
def slotNeedsPoints (s : Slot) : Bool :=
  match s.participant with
  | some p => p.name ≠ "BYE" && s.points.isNone
  | none => false

/-- `computePlacements` (app.js 81-105).  `none` models the
`isComplete: false` result (no placements); `some l` models the complete
result with placements `l`.  (The JS function returns a copy of the match
with these fields; every caller reads exactly `isComplete` and
`placements`, so the pair is all that needs modelling.) -/
def computePlacements (m : Match) : Option (List Participant) :=
  if m.slots.any slotNeedsPoints then none
  else
    some (((m.slots.enum).insertionSort slotRel).filterMap (fun x => x.2.participant))

/-! ### Grouping policy (`distributeIntoGroups`, app.js 28-53) -/

/-- Sizes of the `m` groups: `base + (i < rem ? 1 : 0)` for `i = 0..m-1`. -/
def groupSizes (m base rem : Nat) : List Nat :=
  (List.range m).map (fun i => base + if i < rem then 1 else 0)

/-- Successive `players.slice(idx, idx + size)` with `idx` advancing by
`size` each step (the loop body of `distributeIntoGroups`). -/
def takeSlices : List Nat → List α → List (List α)
  | [], _ => []
  | s :: ss, xs => xs.take s :: takeSlices ss (xs.drop s)

/-- The group count `m` of `distributeIntoGroups` (app.js 32-40):
`minMatches = Math.ceil(N/5) = (N+4)/5`, `maxMatches = Math.floor(N/4) = N/4`,
`Math.ceil(N/4) = (N+3)/4` in `Nat` arithmetic. -/
def groupCount (N : Nat) : Nat :=
  if (N + 4) / 5 ≤ N / 4 then N / 4 else (N + 3) / 4

/-- `distributeIntoGroups` (app.js 28-53). -/
def distributeIntoGroups (players : List Participant) : List (List Participant) :=
  let N := players.length
  if N = 0 then []
  else
    let m := groupCount N
    takeSlices (groupSizes m (N / m) (N % m)) players

/-! ### Seeding (`makeByes`, `seedInitialRound`, app.js 55-79) -/

/-- `makeByes` (app.js 55-60); the random id suffix is dropped. -/
def makeByes (count : Nat) : List Participant :=
  (List.range count).map (fun i => { id := "bye_" ++ toString i, name := "BYE" })

/-- `seedInitialRound` (app.js 62-79). -/
def seedInitialRound (players : List Participant) : Round :=
  let groups := distributeIntoGroups players
  let ms := groups.map (fun g =>
    let desiredSize := max 4 g.length
    let filled := if g.length < desiredSize then g ++ makeByes (desiredSize - g.length) else g
    { id := "m"
      slots := filled.map (fun p =>
        { participant := some p
          points := if p.name = "BYE" then some 0 else none })
      isComplete := false })
  { id := "r", name := "Round 1", matchList := ms, computed := false }

/-! ### Advancers and thirds (`nextRoundFrom`, app.js 107-123) -/

/-- `m.slots.find(s => s.participant?.id === third.id)?.points ?? 0`.
(`undefined === pid` is false for a string `pid`, hence `= some pid`.) -/
def findPoints (m : Match) (pid : String) : Int :=
  (((m.slots.find? (fun s => s.participant.map (·.id) = some pid)).bind
    (·.points)).getD 0)

/-- The 1st and 2nd placements of one complete match, minus BYEs
(the two `advancers.push` sites of `nextRoundFrom`). -/
def matchAdvancers (m : Match) : List Participant :=
  match computePlacements m with
  | none => []
  | some placements => (placements.take 2).filter (fun p => p.name ≠ "BYE")

/-- The 3rd placement of one complete match with its recorded points, minus
BYEs (the `thirds.push` site of `nextRoundFrom`). -/
def matchThird (m : Match) : List (Participant × Int) :=
  match computePlacements m with
  | none => []
  | some placements =>
    match placements.get? 2 with
    | none => []
    | some third => if third.name ≠ "BYE" then [(third, findPoints m third.id)] else []

/-- `nextRoundFrom` (app.js 107-123): `(advancers, thirds)`. -/
def nextRoundFrom (current : Round) : List Participant × List (Participant × Int) :=
  ((current.matchList.map matchAdvancers).flatten, (current.matchList.map matchThird).flatten)

/-! ### Round builder (`buildNextRound`, app.js 125-364) -/

/-- `chunk4` (app.js 17-21). -/
def chunk4 : List α → List (List α)
  | [] => []
  | [a] => [[a]]
  | [a, b] => [[a, b]]
  | [a, b, c] => [[a, b, c]]
  | a :: b :: c :: d :: rest => [a, b, c, d] :: chunk4 rest

/-- A match as every branch of the builder creates it:
`{ id, slots: g.map(p => ({ participant: p })), isComplete: false }`. -/
def mkMatch (g : List Participant) : Match :=
  { id := "m"
    slots := g.map (fun p => { participant := some p, points := none })
    isComplete := false }

/-- A round as the builder creates it. -/
def mkRound (name : String) (groups : List (List Participant)) : Round :=
  { id := "r", name := name, matchList := groups.map mkMatch, computed := false }

/-- The comparator `(a, b) => b.points - a.points || a.p.name.localeCompare(b.p.name)`
used on `{p, points}` records, as a `<=` test. -/
def pairLe (a b : Participant × Int) : Bool :=
  if a.2 ≠ b.2 then decide (b.2 < a.2) else strLeB a.1.name b.1.name

/-- The relation `sortPairs` sorts by. -/
def pairRel (a b : Participant × Int) : Prop := pairLe a b = true

instance : DecidableRel pairRel := fun _ _ => instDecidableEqBool _ _

/-- Stable sort of `{p, points}` records by points descending, name
ascending (the `.sort(...)` applied to seconds and to thirds). -/
def sortPairs (l : List (Participant × Int)) : List (Participant × Int) :=
  l.insertionSort pairRel

/-- JS `Set`-based dedup by id keeping the first occurrence (the
`seen`/`pool` loop of the semifinal-formation block, app.js 221-240). -/
def dedupByIdAux (seen : List String) : List Participant → List Participant
  | [] => []
  | p :: rest =>
    if seen.contains p.id then dedupByIdAux seen rest
    else p :: dedupByIdAux (p.id :: seen) rest

def dedupById (ps : List Participant) : List Participant := dedupByIdAux [] ps

/-- JS `Array.from(new Map(ps.map(p => [p.id, p])).values())`: keys keep
first-insertion order, each key's value is the last one set for it. -/
def jsMapValuesAux (orig : List Participant) (seen : List String) :
    List Participant → List Participant
  | [] => []
  | p :: rest =>
    if seen.contains p.id then jsMapValuesAux orig seen rest
    else ((orig.filter (fun q => q.id = p.id)).getLast?.getD p)
      :: jsMapValuesAux orig (p.id :: seen) rest

def jsMapValues (ps : List Participant) : List Participant := jsMapValuesAux ps [] ps

/-- `cms.every(cm => cm.isComplete && cm.placements && cm.placements.length >= 2)`
(the guard of both final-table branches, app.js 156-160 and 294-298). -/
def semifinalRanked (prev : Round) : Bool :=
  (prev.matchList.map computePlacements).all (fun cm =>
    match cm with
    | some l => decide (2 ≤ l.length)
    | none => false)

/-- `cms.map(cm => cm.placements[0]).filter(Boolean)` (app.js 163 and 303):
the match winners, *without* any BYE filtering. -/
def winnersOf (prev : Round) : List Participant :=
  (prev.matchList.map computePlacements).filterMap (fun cm => (cm.getD []).head?)

/-- The seconds with their recorded points, *without* any BYE filtering
(app.js 164-173 and 304-317): `placements[1]` of each match paired with the
points looked up in that match's slots, entries with no second dropped,
sorted by points descending then name. -/
def secondsOf (prev : Round) : List (Participant × Int) :=
  sortPairs (((prev.matchList.map computePlacements).zip prev.matchList).filterMap
    (fun cp => ((cp.1.getD []).get? 1).map (fun second => (second, findPoints cp.2 second.id))))

/-- Winners plus the single best second, deduplicated with JS `Map`
semantics — the `uniqueAdv` of both final-table branches (app.js 175-178
and 318-326). -/
def finalFour (prev : Round) : List Participant :=
  jsMapValues (winnersOf prev ++ ((secondsOf prev).head?.map (·.1)).toList)

/-- The `prev.name === "Semifinal"` branch (app.js 143-187): `none` models
the two `return null` exits. -/
def buildFinalFromSemifinal (prev : Round) : Option Round :=
  if semifinalRanked prev then
    if (finalFour prev).length = 4 then
      some (mkRound "Final Table" (chunk4 (finalFour prev)))
    else none
  else none

/-- The winners of the semifinal-formation block (app.js 197-199), which
*does* filter BYEs: `.filter(p => p && p.name !== "BYE")`. -/
def realWinnersOf (prev : Round) : List Participant :=
  (winnersOf prev).filter (fun p => p.name ≠ "BYE")

/-- The seconds of the semifinal-formation block (app.js 201-213), which
*does* filter BYEs before the points lookup. -/
def realSecondsOf (prev : Round) : List (Participant × Int) :=
  sortPairs (((prev.matchList.map computePlacements).zip prev.matchList).filterMap
    (fun cp =>
      match (cp.1.getD []).get? 1 with
      | none => none
      | some second =>
        if second.name = "BYE" then none
        else some (second, findPoints cp.2 second.id)))

/-- The candidate pool of the semifinal-formation block (app.js 216-240):
unique winners, then seconds sorted by points descending (name tie-break),
then thirds sorted the same way, skipping already-seen ids. -/
def semifinalPool (prev : Round) (thirds : List (Participant × Int)) : List Participant :=
  dedupById (realWinnersOf prev ++ (realSecondsOf prev).map (·.1)
    ++ (sortPairs thirds).map (·.1))

/-- `selected.slice(i*3, i*3+3)` for `i = 0,1,2` (app.js 258-260). -/
def semifinalGroups (selected : List Participant) : List (List Participant) :=
  (List.range 3).map (fun i => (selected.drop (3 * i)).take 3)

/-- The semifinal-formation block (app.js 193-274).  The redundant
`prev.name !== "Semifinal"` guard of the source is kept.  `none` means the
block did not return and control falls through. -/
def trySemifinal (prev : Round) (thirds : List (Participant × Int)) : Option Round :=
  if prev.name = "Semifinal" then none
  else if (prev.matchList.map computePlacements).all Option.isSome then
    if (semifinalPool prev thirds).length = 9 then
      some (mkRound "Semifinal" (semifinalGroups ((semifinalPool prev thirds).take 9)))
    else none
  else none

/-- `isSemifinalFormat` (app.js 281-289): exactly 3 matches, each with at
least two real (non-BYE) players. -/
def isSemifinalFormat (prev : Round) : Bool :=
  prev.matchList.length = 3 &&
    prev.matchList.all (fun m =>
      2 ≤ (m.slots.filter (fun s =>
        s.participant.isSome && (s.participant.map (·.name)).getD "" ≠ "BYE")).length)

/-- The BYE-padded semifinal-shaped final block (app.js 291-339).
`some res` models a `return res` (`res = none` is the `return null` for
missing placements); `none` means fall through to the default path. -/
def tryFormatFinal (prev : Round) : Option (Option Round) :=
  if semifinalRanked prev then
    if (finalFour prev).length = 4 then
      some (some (mkRound "Final Table" (chunk4 (finalFour prev))))
    else none
  else some none

/-- The top-up loop of the default path (app.js 348-353): any group smaller
than 4 is filled from the (already sorted) `remainingThirds`, which are
consumed by `splice` and so never reused. -/
def topUpGroups : List (List Participant) → List (Participant × Int) → List (List Participant)
  | [], _ => []
  | g :: gs, rem =>
    if 4 ≤ g.length then g :: topUpGroups gs rem
    else (g ++ (rem.take (4 - g.length)).map (·.1)) :: topUpGroups gs (rem.drop (4 - g.length))

/-- The shortfall a group brings to the top-up loop: how many thirds it
will splice off. -/
def groupNeed (g : List Participant) : Nat :=
  if 4 ≤ g.length then 0 else 4 - g.length

/-- The default advancer-distribution path (app.js 341-363). -/
def defaultPath (advancers : List Participant) (thirds : List (Participant × Int))
    (roundIndex : Nat) : Round :=
  let groups := topUpGroups (distributeIntoGroups advancers) (sortPairs thirds)
  let totalAdv := (groups.map List.length).sum
  let roundName := if totalAdv = 4 then "Final Table" else "Round " ++ toString (roundIndex + 2)
  mkRound roundName groups

/-- `buildNextRound` (app.js 125-364). -/
def buildNextRound (prev : Round) (roundIndex : Nat) : Option Round :=
  let advancers := (nextRoundFrom prev).1
  let thirds := (nextRoundFrom prev).2
  if advancers.length = 0 then none
  else if prev.name = "Semifinal" then buildFinalFromSemifinal prev
  else
    match trySemifinal prev thirds with
    | some r => some r
    | none =>
      if isSemifinalFormat prev then
        match tryFormatFinal prev with
        | some res => res
        | none => some (defaultPath advancers thirds roundIndex)
      else some (defaultPath advancers thirds roundIndex)

/-- `buildNext` (app.js 534-554), as a function of the rounds sequence it
mutates; the early exits (already at the Final Table, round not computed,
builder returned null) leave the sequence unchanged. -/
def buildNext (rounds : List Round) : List Round :=
  match rounds.getLast? with
  | none => rounds
  | some prev =>
    if prev.name = "Final Table" then rounds
    else if !prev.computed then rounds
    else
      match buildNextRound prev (rounds.length - 1) with
      | none => rounds
      | some next => rounds ++ [next]

/-! ### The claim-side sort order of C5 (spec wording)

Modelled from the spec's words, for comparison with `computePlacements`:
the claim orders by "numeric points descending (BYE/undefined treated as
negative infinity — i.e., always last)", so a BYE slot's points are forced
to `-Infinity` regardless of the numeric value the slot holds. -/

def claimPoints (s : Slot) : Option Int :=
  if slotName s = "BYE" then none else s.points

/-- The claim's comparator as a `<=` test. -/
def claimSlotLe (a b : Slot) : Bool :=
  if claimPoints a ≠ claimPoints b then extLtB (claimPoints b) (claimPoints a)
  else if slotName a ≠ slotName b then strLtB (slotName a) (slotName b)
  else strLeB (slotId a) (slotId b)

def claimSlotRel (a b : Nat × Slot) : Prop := claimSlotLe a.2 b.2 = true

instance : DecidableRel claimSlotRel := fun _ _ => instDecidableEqBool _ _

/-- The placements that the claim's sort order would produce. -/
def claimPlacements (m : Match) : List Participant :=
  ((m.slots.enum).insertionSort claimSlotRel).filterMap (fun x => x.2.participant)

/-- The stability relation for `computePlacements`' sort: if `b` also
compares `≤ a` (a tie) yet `a` comes first, then `a` carried the smaller
original index. -/
def stabRel (a b : Nat × Slot) : Prop := slotLe b.2 a.2 = true → a.1 < b.1

/-! ### Concrete data -/

/-- A complete match where a BYE slot (holding the 0 points the seeder gave
it) ties on points with a real participant whose name sorts after "BYE". -/
def c5zed : Participant := { id := "z", name := "ZED" }

def c5bye : Participant := { id := "b0", name := "BYE" }

def c5m : Match :=
  { id := "m"
    slots := [ { participant := some c5zed, points := some 0 },
               { participant := some c5bye, points := some 0 } ]
    isComplete := false }

/-- A complete match with one empty slot (manual-seeding scenario). -/
def c10alice : Participant := { id := "a", name := "Alice" }

def c10m : Match :=
  { id := "m"
    slots := [ { participant := none, points := none },
               { participant := some c10alice, points := some 5 } ]
    isComplete := false }

/-- Six distinct participants: the fallback branch of the grouping policy
(`ceil(6/5) = 2 > 1 = floor(6/4)`) yields two groups of three. -/
def c3six : List Participant :=
  [ { id := "p1", name := "P1" }, { id := "p2", name := "P2" },
    { id := "p3", name := "P3" }, { id := "p4", name := "P4" },
    { id := "p5", name := "P5" }, { id := "p6", name := "P6" } ]

/-- Eight distinct participants (a feasible 4/5 tiling: two groups of 4). -/
def c3eight : List Participant :=
  c3six ++ [ { id := "p7", name := "P7" }, { id := "p8", name := "P8" } ]

/-- Two real participants, for the N &lt; 4 seeding witness. -/
def c9two : List Participant :=
  [ { id := "ann", name := "Ann" }, { id := "bob", name := "Bob" } ]

/-- A complete match from strings and points, for concrete rounds. -/
def mkTestMatch (ps : List (String × String × Int)) : Match :=
  { id := "m"
    slots := ps.map (fun x =>
      { participant := some { id := x.1, name := x.2.1 }, points := some x.2.2 })
    isComplete := false }

/-- A rounds sequence ending at the Final Table. -/
def c7rounds : List Round := [mkRound "Final Table" [[c5zed]]]

/-- A round with no matches: it yields no advancers at all. -/
def c7empty : Round := mkRound "Round 1" []

/-- The seeded 11-player bracket (groups 4/4/3 plus one BYE) after the user
entered 0 points everywhere; the BYE of the third match ties everyone at 0
and wins the name tie-break, so that match's `placements[0]` is the BYE. -/
def c8round : Round :=
  { id := "r", name := "Round 1",
    matchList := [ mkTestMatch [("a","PA",0),("b","PB",0),("c","PC",0),("d","PD",0)],
                   mkTestMatch [("e","PE",0),("f","PF",0),("g","PG",0),("h","PH",0)],
                   mkTestMatch [("i","PI",0),("j","PJ",0),("k","PK",0),("bye_0","BYE",0)] ],
    computed := true }

/-- Three matches of three real players each, all complete and ranked: the
semifinal-formation pool is exactly 9. -/
def c1round : Round :=
  { id := "r", name := "Round 1",
    matchList := [ mkTestMatch [("a","A",3),("b","B",2),("c","C",1)],
                   mkTestMatch [("d","D",3),("e","E",2),("f","F",1)],
                   mkTestMatch [("g","G",3),("h","H",2),("i","I",1)] ],
    computed := true }

/-- A completed Semifinal: three matches of three, distinct points; the
best second is SE (6 points). -/
def c2semi : Round :=
  { id := "r", name := "Semifinal",
    matchList := [ mkTestMatch [("s1","SA",10),("s2","SB",5),("s3","SC",1)],
                   mkTestMatch [("s4","SD",10),("s5","SE",6),("s6","SF",1)],
                   mkTestMatch [("s7","SG",10),("s8","SH",4),("s9","SI",1)] ],
    computed := true }

/-- Four matches whose advancers (6) split into two groups of three; only
one third (U3) is available, so the second group stays undersized. -/
def c4round : Round :=
  { id := "r", name := "Round 2",
    matchList := [ mkTestMatch [("u1","U1",4),("u2","U2",3),("u3","U3",2),("u4","U4",1)],
                   mkTestMatch [("v1","V1",3),("v2","V2",2)],
                   mkTestMatch [("w1","W1",1)],
                   mkTestMatch [("x1","X1",1)] ],
    computed := true }

/-! ### Order-theoretic facts about the comparator -/

theorem charListLt_irrefl : ∀ l, charListLt l l = false
  | [] => rfl
  | a :: as => by
    simp [charListLt, charListLt_irrefl as]

theorem charListLt_trans : ∀ {a b c : List Char},
    charListLt a b = true → charListLt b c = true → charListLt a c = true
  | a, b, c, hab, hbc => by
    match a, b, c with
    | _, _, [] => simp [charListLt] at hbc
    | _ :: _, [], _ :: _ => simp [charListLt] at hab
    | [], _, _ :: _ => rfl
    | a :: as, b :: bs, c :: cs =>
      simp only [charListLt, Bool.or_eq_true, Bool.and_eq_true, decide_eq_true_eq] at *
      rcases hab with h1 | ⟨rfl, h1⟩
      · rcases hbc with h2 | ⟨rfl, h2⟩
        · exact Or.inl (lt_trans h1 h2)
        · exact Or.inl h1
      · rcases hbc with h2 | ⟨rfl, h2⟩
        · exact Or.inl h2
        · exact Or.inr ⟨rfl, charListLt_trans h1 h2⟩

theorem charListLt_asymm {a b : List Char}
    (h : charListLt a b = true) : charListLt b a = false := by
  by_contra hcon
  rw [Bool.not_eq_false] at hcon
  have := charListLt_trans h hcon
  rw [charListLt_irrefl] at this
  cases this

theorem charListLt_connex : ∀ {a b : List Char},
    charListLt a b = false → charListLt b a = false → a = b
  | [], [], _, _ => rfl
  | [], _ :: _, hab, _ => by simp [charListLt] at hab
  | _ :: _, [], _, hba => by simp [charListLt] at hba
  | a :: as, b :: bs, hab, hba => by
    simp only [charListLt, Bool.or_eq_false_iff, Bool.and_eq_false_iff,
      decide_eq_false_iff_not] at hab hba
    obtain ⟨hab1, hab2⟩ := hab
    obtain ⟨hba1, hba2⟩ := hba
    have hEq : a = b := le_antisymm (not_lt.mp hba1) (not_lt.mp hab1)
    subst hEq
    rcases hab2 with h | h
    · exact absurd rfl h
    · rcases hba2 with h2 | h2
      · exact absurd rfl h2
      · rw [charListLt_connex h h2]

/-- `!lt b a && !lt c b → !lt c a`: transitivity of the reflexive closure. -/
theorem charListLt_le_trans {a b c : List Char}
    (h1 : charListLt b a = false) (h2 : charListLt c b = false) :
    charListLt c a = false := by
  by_cases hcb : charListLt b c = true
  · by_cases hba : charListLt a b = true
    · exact charListLt_asymm (charListLt_trans hba hcb)
    · rw [Bool.not_eq_true] at hba
      rw [charListLt_connex hba h1]
      exact h2
  · rw [Bool.not_eq_true] at hcb
    rw [← charListLt_connex hcb h2]
    exact h1

theorem extLtB_irrefl : ∀ p, extLtB p p = false
  | none => rfl
  | some x => by simp [extLtB]

theorem extLtB_trans : ∀ {a b c : Option Int},
    extLtB a b = true → extLtB b c = true → extLtB a c = true
  | none, some _, some _, _, _ => rfl
  | some x, some y, some z, h1, h2 => by
    simp only [extLtB, decide_eq_true_eq] at *
    omega
  | none, none, _, h1, _ => by cases h1
  | some _, none, _, h1, _ => by cases h1
  | _, some _, none, _, h2 => by cases h2

theorem extLtB_connex : ∀ {a b : Option Int}, a ≠ b →
    extLtB a b = false → extLtB b a = true
  | none, none, h, _ => absurd rfl h
  | none, some _, _, h1 => by cases h1
  | some _, none, _, _ => rfl
  | some x, some y, h, h1 => by
    simp only [extLtB, decide_eq_true_eq, decide_eq_false_iff_not, not_lt] at *
    rcases lt_or_eq_of_le h1 with h2 | h2
    · exact h2
    · exact absurd (congrArg some h2.symm) h

theorem extLtB_asymm {a b : Option Int} (h : extLtB a b = true) : extLtB b a = false := by
  by_contra hcon
  rw [Bool.not_eq_false] at hcon
  have := extLtB_trans h hcon
  rw [extLtB_irrefl] at this
  cases this

theorem extLtB_ne {a b : Option Int} (h : extLtB a b = true) : a ≠ b := by
  rintro rfl
  rw [extLtB_irrefl] at h
  cases h

theorem strLtB_ne {a b : String} (h : strLtB a b = true) : a ≠ b := by
  rintro rfl
  unfold strLtB at h
  rw [charListLt_irrefl] at h
  cases h

theorem slotLe_points_ne {a b : Slot} (h : a.points ≠ b.points) :
    slotLe a b = extLtB b.points a.points := by
  unfold slotLe
  rw [if_pos h]

theorem slotLe_name_ne {a b : Slot} (hp : a.points = b.points)
    (hn : slotName a ≠ slotName b) :
    slotLe a b = strLtB (slotName a) (slotName b) := by
  unfold slotLe
  rw [if_neg (not_not_intro hp), if_pos hn]

theorem slotLe_tie {a b : Slot} (hp : a.points = b.points)
    (hn : slotName a = slotName b) :
    slotLe a b = strLeB (slotId a) (slotId b) := by
  unfold slotLe
  rw [if_neg (not_not_intro hp), if_neg (not_not_intro hn)]

theorem strLtB_connex {a b : String} (h1 : strLtB a b = false)
    (h2 : strLtB b a = false) : a = b := by
  unfold strLtB at h1 h2
  exact String.ext (charListLt_connex h1 h2)

theorem slotLe_total (a b : Slot) : slotLe a b = true ∨ slotLe b a = true := by
  by_cases hp : a.points = b.points
  · by_cases hn : slotName a = slotName b
    · rw [slotLe_tie hp hn, slotLe_tie hp.symm hn.symm]
      unfold strLeB
      by_cases h : charListLt (slotId b).data (slotId a).data = true
      · right
        rw [charListLt_asymm h]
        rfl
      · left
        rw [Bool.not_eq_true] at h
        rw [h]
        rfl
    · rw [slotLe_name_ne hp hn, slotLe_name_ne hp.symm (Ne.symm hn)]
      by_cases h : strLtB (slotName a) (slotName b) = true
      · exact Or.inl h
      · right
        rw [Bool.not_eq_true] at h
        by_contra hcon
        rw [Bool.not_eq_true] at hcon
        exact hn (strLtB_connex h hcon)
  · rw [slotLe_points_ne hp, slotLe_points_ne (Ne.symm hp)]
    by_cases h : extLtB b.points a.points = true
    · exact Or.inl h
    · right
      rw [Bool.not_eq_true] at h
      exact extLtB_connex (Ne.symm hp) h

theorem slotLe_trans {a b c : Slot} (hab : slotLe a b = true) (hbc : slotLe b c = true) :
    slotLe a c = true := by
  by_cases hp1 : a.points = b.points
  · by_cases hp2 : b.points = c.points
    · have hp3 : a.points = c.points := hp1.trans hp2
      by_cases hn1 : slotName a = slotName b
      · by_cases hn2 : slotName b = slotName c
        · rw [slotLe_tie hp1 hn1] at hab
          rw [slotLe_tie hp2 hn2] at hbc
          rw [slotLe_tie hp3 (hn1.trans hn2)]
          simp only [strLeB, Bool.not_eq_true'] at hab hbc ⊢
          exact charListLt_le_trans hab hbc
        · rw [slotLe_name_ne hp2 hn2] at hbc
          rw [slotLe_name_ne hp3 (fun h => hn2 (hn1.symm.trans h))]
          rw [hn1]
          exact hbc
      · by_cases hn2 : slotName b = slotName c
        · rw [slotLe_name_ne hp1 hn1] at hab
          rw [slotLe_name_ne hp3 (fun h => hn1 (h.trans hn2.symm))]
          rw [← hn2]
          exact hab
        · rw [slotLe_name_ne hp1 hn1] at hab
          rw [slotLe_name_ne hp2 hn2] at hbc
          have htr := charListLt_trans hab hbc
          have hn3 : slotName a ≠ slotName c := by
            intro h
            rw [strLtB, h] at hab
            have := charListLt_trans hab hbc
            rw [charListLt_irrefl] at this
            cases this
          rw [slotLe_name_ne hp3 hn3]
          exact htr
    · rw [slotLe_points_ne hp2] at hbc
      have hp3 : a.points ≠ c.points := fun h => hp2 (hp1.symm.trans h)
      rw [slotLe_points_ne hp3]
      rw [hp1]
      exact hbc
  · by_cases hp2 : b.points = c.points
    · rw [slotLe_points_ne hp1] at hab
      have hp3 : a.points ≠ c.points := fun h => hp1 (h.trans hp2.symm)
      rw [slotLe_points_ne hp3]
      rw [← hp2]
      exact hab
    · rw [slotLe_points_ne hp1] at hab
      rw [slotLe_points_ne hp2] at hbc
      have htr := extLtB_trans hbc hab
      have hp3 : a.points ≠ c.points := by
        intro h
        rw [h] at htr
        rw [extLtB_irrefl] at htr
        cases htr
      rw [slotLe_points_ne hp3]
      exact htr

instance : IsTotal (Nat × Slot) slotRel :=
  ⟨fun a b => slotLe_total a.2 b.2⟩

instance : IsTrans (Nat × Slot) slotRel :=
  ⟨fun _ _ _ hab hbc => slotLe_trans hab hbc⟩

/-! ### Stability of the modelled `Array.sort` -/

theorem pairwise_fst_lt_enumFrom {α : Type} :
    ∀ (n : Nat) (l : List α),
      List.Pairwise (fun a b : Nat × α => a.1 < b.1) (List.enumFrom n l)
  | _, [] => List.Pairwise.nil
  | n, a :: l => by
    rw [List.enumFrom_cons]
    refine List.Pairwise.cons ?_ (pairwise_fst_lt_enumFrom (n + 1) l)
    rw [List.forall_mem_enumFrom]
    intro i _
    omega

theorem pairwise_fst_lt_enum {α : Type} (l : List α) :
    List.Pairwise (fun a b : Nat × α => a.1 < b.1) l.enum :=
  pairwise_fst_lt_enumFrom 0 l

/-- Inserting `x` into `l` preserves a pairwise property `P`, provided `P`
holds from `x` to everything in `l` and from `y` back to `x` whenever the
insertion walks past `y`. -/
theorem orderedInsert_pairwise_of {α : Type} (r : α → α → Prop) [DecidableRel r]
    (P : α → α → Prop) (x : α) :
    ∀ l : List α, List.Pairwise P l → (∀ y ∈ l, P x y) →
      (∀ y ∈ l, ¬r x y → P y x) → List.Pairwise P (List.orderedInsert r x l)
  | [], _, _, _ => List.pairwise_singleton P x
  | y :: ys, hl, hx, hskip => by
    rw [List.orderedInsert]
    by_cases hr : r x y
    · rw [if_pos hr]
      exact List.Pairwise.cons hx hl
    · rw [if_neg hr]
      refine List.Pairwise.cons ?_ ?_
      · intro z hz
        rcases (List.mem_orderedInsert r).mp hz with rfl | hz
        · exact hskip y (List.mem_cons_self y ys) hr
        · exact List.rel_of_pairwise_cons hl hz
      · exact orderedInsert_pairwise_of r P x ys hl.of_cons
          (fun z hz => hx z (List.mem_cons_of_mem y hz))
          (fun z hz => hskip z (List.mem_cons_of_mem y hz))

theorem insertionSort_stab :
    ∀ l : List (Nat × Slot),
      List.Pairwise (fun a b : Nat × Slot => a.1 < b.1) l →
      List.Pairwise stabRel (List.insertionSort slotRel l)
  | [], _ => List.Pairwise.nil
  | a :: l, h => by
    rw [List.insertionSort]
    have ha : ∀ y ∈ l, a.1 < y.1 := fun y hy => List.rel_of_pairwise_cons h hy
    refine orderedInsert_pairwise_of slotRel stabRel a _
      (insertionSort_stab l h.of_cons) ?_ ?_
    · intro y hy
      exact fun _ => ha y ((List.mem_insertionSort slotRel).mp hy)
    · intro y _ hneg
      intro hr
      exact absurd hr hneg

/-! ### Bridges between placements and slots -/

theorem length_filterMap_participant :
    ∀ slots : List Slot,
      (slots.filterMap (·.participant)).length
        = (slots.filter (fun s => s.participant.isSome)).length
  | [] => rfl
  | s :: rest => by
    cases hp : s.participant <;>
      simp [List.filterMap_cons, List.filter_cons, hp, length_filterMap_participant rest]

theorem slots_filterMap_eq_enum_filterMap (slots : List Slot) :
    slots.filterMap (·.participant)
      = slots.enum.filterMap (fun x => x.2.participant) := by
  conv_lhs => rw [← List.enum_map_snd slots]
  rw [List.filterMap_map]
  rfl

theorem computePlacements_some {m : Match} {l : List Participant}
    (h : computePlacements m = some l) :
    l = ((m.slots.enum).insertionSort slotRel).filterMap (fun x => x.2.participant) := by
  unfold computePlacements at h
  split at h
  · exact absurd h (by simp)
  · injection h with h'
    exact h'.symm

/-! ### Claim C5 -/

/-- Claim C5, counterexample to the claim as stated: in the complete match
`c5m` the BYE slot holds numeric points 0 (exactly what `seedInitialRound`
assigns a BYE), ties with ZED on points, and wins the name tie-break, so
`computePlacements` ranks the BYE *first* — not "always last" as the
claim's "(BYE/undefined treated as negative infinity)" requires; the
claim-side order would rank ZED first. -/
theorem c5_counterexample :
    computePlacements c5m = some [c5bye, c5zed] ∧
    claimPlacements c5m = [c5zed, c5bye] ∧
    c5bye.name = "BYE" ∧ c5zed.name ≠ "BYE" := by
  refine ⟨by decide, by decide, rfl, by decide⟩

/-- Claim C5 (amended): for every complete match, the placements are the
participants (empty slots dropped) of the slot list stably sorted by:
points descending with *undefined* points treated as negative infinity (a
BYE slot's stored numeric points compare like any other number), then
participant display name ascending, then participant id ascending.  Index
0 of the list is what every caller treats as the match winner.  Stated as:
the index-tagged sorted slot list is a permutation of the tagged input,
pairwise ordered by the comparator, stable (a tie never reorders original
indices), and the placements are its participants in order. -/
theorem c5_placements_sorted (m : Match) (l : List Participant)
    (h : computePlacements m = some l) :
    (((m.slots.enum).insertionSort slotRel).Perm m.slots.enum) ∧
    List.Pairwise (fun a b : Nat × Slot => slotLe a.2 b.2 = true)
      ((m.slots.enum).insertionSort slotRel) ∧
    List.Pairwise (fun a b : Nat × Slot => slotLe b.2 a.2 = true → a.1 < b.1)
      ((m.slots.enum).insertionSort slotRel) ∧
    l = ((m.slots.enum).insertionSort slotRel).filterMap (fun x => x.2.participant) := by
  refine ⟨List.perm_insertionSort slotRel _, ?_, ?_, computePlacements_some h⟩
  · exact List.sorted_insertionSort slotRel _
  · exact insertionSort_stab _ (pairwise_fst_lt_enum m.slots)

/-- Witness for C5 (amended) at the concrete complete match `c5m`. -/
theorem c5_witness :
    computePlacements c5m = some [c5bye, c5zed] ∧
    ((((c5m.slots.enum).insertionSort slotRel).Perm c5m.slots.enum) ∧
      List.Pairwise (fun a b : Nat × Slot => slotLe a.2 b.2 = true)
        ((c5m.slots.enum).insertionSort slotRel) ∧
      List.Pairwise (fun a b : Nat × Slot => slotLe b.2 a.2 = true → a.1 < b.1)
        ((c5m.slots.enum).insertionSort slotRel) ∧
      [c5bye, c5zed]
        = ((c5m.slots.enum).insertionSort slotRel).filterMap (fun x => x.2.participant)) :=
  ⟨by decide, c5_placements_sorted c5m [c5bye, c5zed] (by decide)⟩

/-! ### Claim C6 -/

/-- Claim C6: `computePlacements` reports a match incomplete exactly when
some slot holds a non-BYE participant with no numeric points; slots with
no participant are ignored by the check, and placements exist exactly in
the complete case. -/
theorem c6_completeness (m : Match) :
    computePlacements m = none
      ↔ ∃ s ∈ m.slots, ∃ p, s.participant = some p ∧ p.name ≠ "BYE" ∧ s.points = none := by
  unfold computePlacements
  constructor
  · intro h
    split at h
    · next hany =>
      rw [List.any_eq_true] at hany
      obtain ⟨s, hs, hneed⟩ := hany
      refine ⟨s, hs, ?_⟩
      unfold slotNeedsPoints at hneed
      cases hp : s.participant with
      | none => rw [hp] at hneed; cases hneed
      | some p =>
        rw [hp] at hneed
        simp only [Bool.and_eq_true, decide_eq_true_eq, Option.isNone_iff_eq_none] at hneed
        exact ⟨p, rfl, hneed.1, hneed.2⟩
    · cases h
  · rintro ⟨s, hs, p, hp, hname, hpts⟩
    have hany : m.slots.any slotNeedsPoints = true := by
      rw [List.any_eq_true]
      refine ⟨s, hs, ?_⟩
      unfold slotNeedsPoints
      rw [hp]
      simp [hname, hpts]
    rw [if_pos hany]

/-! ### Claim C10 -/

/-- Claim C10: for every complete match the placements contain exactly one
entry per occupied slot — they are a permutation of the participants of
the occupied slots (so empty slots are dropped entirely, never ranked),
and their number equals the number of occupied slots. -/
theorem c10_empty_slots_dropped (m : Match) (l : List Participant)
    (h : computePlacements m = some l) :
    l.Perm (m.slots.filterMap (·.participant)) ∧
    l.length = (m.slots.filter (fun s => s.participant.isSome)).length := by
  have hl := computePlacements_some h
  have hperm : l.Perm (m.slots.filterMap (·.participant)) := by
    rw [hl, slots_filterMap_eq_enum_filterMap]
    exact (List.perm_insertionSort slotRel _).filterMap _
  refine ⟨hperm, ?_⟩
  rw [hperm.length_eq, length_filterMap_participant]

/-- Witness for C10: the empty slot of `c10m` is dropped, one placement
per occupied slot. -/
theorem c10_witness :
    computePlacements c10m = some [c10alice] ∧
    ([c10alice].Perm (c10m.slots.filterMap (·.participant)) ∧
      [c10alice].length
        = (c10m.slots.filter (fun s => s.participant.isSome)).length) :=
  ⟨by decide, c10_empty_slots_dropped c10m [c10alice] (by decide)⟩

/-! ### Grouping-policy lemmas and Claim C3 -/

theorem groupSizes_length (m base rem : Nat) : (groupSizes m base rem).length = m := by
  simp [groupSizes]

theorem groupSizes_sum (base rem : Nat) :
    ∀ m, (groupSizes m base rem).sum = m * base + min rem m
  | 0 => by simp [groupSizes]
  | m + 1 => by
    unfold groupSizes
    rw [List.range_succ, List.map_append, List.sum_append]
    have ih := groupSizes_sum base rem m
    unfold groupSizes at ih
    rw [ih]
    simp only [List.map_cons, List.map_nil, List.sum_cons, List.sum_nil]
    rw [Nat.succ_mul]
    by_cases h : m < rem
    · rw [if_pos h]
      omega
    · rw [if_neg h]
      omega

theorem takeSlices_map_length {α : Type} :
    ∀ (sizes : List Nat) (xs : List α), sizes.sum ≤ xs.length →
      (takeSlices sizes xs).map List.length = sizes
  | [], _, _ => rfl
  | s :: ss, xs, h => by
    rw [takeSlices, List.map_cons]
    rw [List.sum_cons] at h
    congr 1
    · rw [List.length_take]
      omega
    · apply takeSlices_map_length ss (xs.drop s)
      rw [List.length_drop]
      omega

theorem takeSlices_flatten {α : Type} :
    ∀ (sizes : List Nat) (xs : List α),
      (takeSlices sizes xs).flatten = xs.take sizes.sum
  | [], xs => by simp [takeSlices]
  | s :: ss, xs => by
    rw [takeSlices, List.flatten_cons, takeSlices_flatten ss, List.sum_cons, List.take_add]

theorem distributeIntoGroups_eq {players : List Participant} (h : players.length ≠ 0) :
    distributeIntoGroups players
      = takeSlices
          (groupSizes (groupCount players.length)
            (players.length / groupCount players.length)
            (players.length % groupCount players.length))
          players := by
  simp only [distributeIntoGroups]
  rw [if_neg h]

theorem groupCount_pos {N : Nat} (h : 1 ≤ N) : 0 < groupCount N := by
  unfold groupCount
  split <;> omega

theorem groupCount_eq_one {N : Nat} (h1 : 1 ≤ N) (h4 : N ≤ 4) : groupCount N = 1 := by
  unfold groupCount
  split <;> omega

theorem distributeIntoGroups_map_length {players : List Participant}
    (h : players.length ≠ 0) :
    (distributeIntoGroups players).map List.length
      = groupSizes (groupCount players.length)
          (players.length / groupCount players.length)
          (players.length % groupCount players.length) := by
  have hmpos : 0 < groupCount players.length := groupCount_pos (by omega)
  rw [distributeIntoGroups_eq h]
  apply takeSlices_map_length
  rw [groupSizes_sum, min_eq_left (Nat.le_of_lt (Nat.mod_lt _ hmpos))]
  exact le_of_eq (Nat.div_add_mod players.length (groupCount players.length))

theorem distributeIntoGroups_sum {players : List Participant}
    (h : players.length ≠ 0) :
    ((distributeIntoGroups players).map List.length).sum = players.length := by
  have hmpos : 0 < groupCount players.length := groupCount_pos (by omega)
  rw [distributeIntoGroups_map_length h, groupSizes_sum,
    min_eq_left (Nat.le_of_lt (Nat.mod_lt _ hmpos))]
  exact Nat.div_add_mod players.length (groupCount players.length)

theorem distributeIntoGroups_length {players : List Participant}
    (h : players.length ≠ 0) :
    (distributeIntoGroups players).length = groupCount players.length := by
  have h1 : (distributeIntoGroups players).length
      = ((distributeIntoGroups players).map List.length).length :=
    (List.length_map _ _).symm
  rw [h1, distributeIntoGroups_map_length h, groupSizes_length]

/-- Claim C3, counterexample to "every group has size 4 or 5" for N ≥ 4 as
stated: six players land in the fallback branch and are split 3/3. -/
theorem c3_counterexample :
    c3six.length = 6 ∧
    (distributeIntoGroups c3six).map List.length = [3, 3] ∧
    ¬(∀ g ∈ distributeIntoGroups c3six, g.length = 4 ∨ g.length = 5) := by
  refine ⟨rfl, by decide, by decide⟩

/-- Claim C3 (amended): for every list of N ≥ 4 players the group count is
`floor(N/4)` when `ceil(N/5) ≤ floor(N/4)` and `ceil(N/4)` otherwise, the
group sizes are `floor(N/m)` with the first `N mod m` groups one larger,
input order is preserved in contiguous slices, and the sizes sum to N;
every group has size 4 or 5 *when* `ceil(N/5) ≤ floor(N/4)` (for N ≥ 4
exactly N ∈ {6, 7, 11} fail that condition and receive a group of 3). -/
theorem c3_grouping (players : List Participant) (h4 : 4 ≤ players.length) :
    (distributeIntoGroups players).length = groupCount players.length ∧
    (distributeIntoGroups players).map List.length
      = groupSizes (groupCount players.length)
          (players.length / groupCount players.length)
          (players.length % groupCount players.length) ∧
    (distributeIntoGroups players).flatten = players ∧
    ((distributeIntoGroups players).map List.length).sum = players.length ∧
    ((players.length + 4) / 5 ≤ players.length / 4 →
      ∀ g ∈ distributeIntoGroups players, g.length = 4 ∨ g.length = 5) := by
  have hN0 : players.length ≠ 0 := by omega
  have hmpos : 0 < groupCount players.length := groupCount_pos (by omega)
  have hsum : (groupSizes (groupCount players.length)
      (players.length / groupCount players.length)
      (players.length % groupCount players.length)).sum = players.length := by
    rw [groupSizes_sum]
    rw [min_eq_left (Nat.le_of_lt (Nat.mod_lt _ hmpos))]
    exact Nat.div_add_mod players.length (groupCount players.length)
  have hmap : (distributeIntoGroups players).map List.length
      = groupSizes (groupCount players.length)
          (players.length / groupCount players.length)
          (players.length % groupCount players.length) := by
    rw [distributeIntoGroups_eq hN0]
    exact takeSlices_map_length _ _ (le_of_eq hsum)
  refine ⟨?_, hmap, ?_, ?_, ?_⟩
  · have h1 : (distributeIntoGroups players).length
        = ((distributeIntoGroups players).map List.length).length :=
      (List.length_map _ _).symm
    rw [h1, hmap, groupSizes_length]
  · rw [distributeIntoGroups_eq hN0, takeSlices_flatten, hsum, List.take_length]
  · rw [hmap, hsum]
  · intro hc g hg
    have hm4 : groupCount players.length = players.length / 4 := by
      unfold groupCount
      rw [if_pos hc]
    have hb4 : 4 * groupCount players.length ≤ players.length := by
      rw [hm4]
      have := Nat.div_mul_le_self players.length 4
      omega
    have hb5 : players.length ≤ 5 * groupCount players.length := by
      rw [hm4]
      omega
    have hbase_ge : 4 ≤ players.length / groupCount players.length :=
      (Nat.le_div_iff_mul_le hmpos).mpr (by omega)
    have hbase_le : players.length / groupCount players.length < 6 := by
      rw [Nat.div_lt_iff_lt_mul hmpos]
      omega
    have hmem : g.length ∈ groupSizes (groupCount players.length)
        (players.length / groupCount players.length)
        (players.length % groupCount players.length) := by
      rw [← hmap]
      exact List.mem_map_of_mem List.length hg
    unfold groupSizes at hmem
    rw [List.mem_map] at hmem
    obtain ⟨i, _, hgl⟩ := hmem
    by_cases h5 : 5 ≤ players.length / groupCount players.length
    · have h5m : 5 * groupCount players.length ≤ players.length :=
        (Nat.le_div_iff_mul_le hmpos).mp h5
      have hdvd : groupCount players.length ∣ players.length := ⟨5, by omega⟩
      have hrem : players.length % groupCount players.length = 0 :=
        Nat.mod_eq_zero_of_dvd hdvd
      rw [hrem] at hgl
      simp only [Nat.not_lt_zero, if_false] at hgl
      right
      omega
    · by_cases hi2 : i < players.length % groupCount players.length
      · rw [if_pos hi2] at hgl
        omega
      · rw [if_neg hi2] at hgl
        omega

/-- Witness for C3 (amended) at eight concrete players: a feasible 4/5
tiling, so every group has size 4 or 5. -/
theorem c3_witness :
    4 ≤ c3eight.length ∧
    (∀ g ∈ distributeIntoGroups c3eight, g.length = 4 ∨ g.length = 5) :=
  ⟨by decide, (c3_grouping c3eight (by decide)).2.2.2.2 (by decide)⟩

/-! ### Claim C9: seeding with BYE padding -/

theorem makeByes_name {k : Nat} : ∀ b ∈ makeByes k, b.name = "BYE" := by
  intro b hb
  unfold makeByes at hb
  rw [List.mem_map] at hb
  obtain ⟨i, _, rfl⟩ := hb
  rfl

theorem distributeIntoGroups_small {players : List Participant}
    (h1 : 1 ≤ players.length) (h3 : players.length ≤ 3) :
    distributeIntoGroups players = [players] := by
  have hN0 : players.length ≠ 0 := by omega
  rw [distributeIntoGroups_eq hN0]
  have hm : groupCount players.length = 1 := by
    unfold groupCount
    split <;> omega
  rw [hm]
  simp [groupSizes, takeSlices, List.range_succ, Nat.div_one, Nat.mod_one,
    List.take_length]

/-- Claim C9: for a roster of N participants with 0 &lt; N &lt; 4 (none of them
named "BYE"), `seedInitialRound` produces "Round 1" with one single match of
exactly 4 slots: the N real participants (points undefined) followed by
4 − N synthetic BYEs (points 0). -/
theorem c9_seed_small (players : List Participant) (h1 : 1 ≤ players.length)
    (h3 : players.length ≤ 3) (hnb : ∀ p ∈ players, p.name ≠ "BYE") :
    seedInitialRound players =
      { id := "r", name := "Round 1",
        matchList := [ { id := "m"
                         slots := players.map
                             (fun p => { participant := some p, points := none })
                           ++ (makeByes (4 - players.length)).map
                             (fun b => { participant := some b, points := some 0 })
                         isComplete := false } ],
        computed := false } := by
  simp only [seedInitialRound]
  rw [distributeIntoGroups_small h1 h3]
  have hmax : max 4 players.length = 4 := by omega
  simp only [List.map_cons, List.map_nil, hmax]
  rw [if_pos (by omega : players.length < 4)]
  rw [List.map_append]
  have hp : players.map (fun p =>
        ({ participant := some p, points := if p.name = "BYE" then some 0 else none } : Slot))
      = players.map (fun p => ({ participant := some p, points := none } : Slot)) := by
    apply List.map_congr_left
    intro p hp
    rw [if_neg (hnb p hp)]
  have hb : (makeByes (4 - players.length)).map (fun p =>
        ({ participant := some p, points := if p.name = "BYE" then some 0 else none } : Slot))
      = (makeByes (4 - players.length)).map
          (fun b => ({ participant := some b, points := some 0 } : Slot)) := by
    apply List.map_congr_left
    intro b hbm
    rw [if_pos (makeByes_name b hbm)]
  rw [hp, hb]

/-- Witness for C9 at the two-player roster `c9two`. -/
theorem c9_witness :
    1 ≤ c9two.length ∧ c9two.length ≤ 3 ∧
    seedInitialRound c9two =
      { id := "r", name := "Round 1",
        matchList := [ { id := "m"
                         slots := c9two.map
                             (fun p => { participant := some p, points := none })
                           ++ (makeByes (4 - c9two.length)).map
                             (fun b => { participant := some b, points := some 0 })
                         isComplete := false } ],
        computed := false } :=
  ⟨by decide, by decide, c9_seed_small c9two (by decide) (by decide) (by decide)⟩

/-! ### Claim C7: build-blocked cases -/

/-- Claim C7: `buildNext` appends nothing when the last round is the Final
Table, or is not computed, or `buildNextRound` returns null; and
`buildNextRound` returns null (no exception) whenever the previous round
yields no advancers. -/
theorem c7_build_blocked (rounds : List Round) (prev : Round)
    (hlast : rounds.getLast? = some prev)
    (hblock : prev.name = "Final Table" ∨ prev.computed = false ∨
      buildNextRound prev (rounds.length - 1) = none) :
    buildNext rounds = rounds ∧
    ∀ (p : Round) (i : Nat), (nextRoundFrom p).1 = [] → buildNextRound p i = none := by
  constructor
  · unfold buildNext
    rw [hlast]
    dsimp only
    by_cases h1 : prev.name = "Final Table"
    · rw [if_pos h1]
    · rw [if_neg h1]
      rcases hblock with h | h | h
      · exact absurd h h1
      · simp [h]
      · by_cases h2 : prev.computed = true
        · simp [h2, h]
        · simp only [Bool.not_eq_true] at h2
          simp [h2]
  · intro p i hadv
    simp [buildNextRound, hadv]

/-- Witness for C7: the terminal Final Table blocks `buildNext`, and the
match-less round `c7empty` (zero advancers) makes `buildNextRound` return
null. -/
theorem c7_witness :
    buildNext c7rounds = c7rounds ∧ buildNextRound c7empty 0 = none := by
  have h := c7_build_blocked c7rounds (mkRound "Final Table" [[c5zed]]) rfl (Or.inl rfl)
  exact ⟨h.1, h.2 c7empty 0 rfl⟩

/-! ### Claim C8: BYEs and advancement -/

/-- Claim C8, the code at the failing input: from the reachable round
`c8round` (an 11-player seed with all-zero scores) `buildNextRound` emits a
"Final Table" round one of whose slots holds the BYE participant — a BYE
*does* advance, because the semifinal-shaped-final branch collects
`placements[0]` of every match with `.filter(Boolean)` only, without the
BYE filter that the semifinal-formation branch applies. -/
theorem c8_bye_advances :
    (buildNextRound c8round 0).map (fun r => r.matchList.map (fun m => m.slots.map slotName))
      = some [["PA", "PE", "BYE", "PB"]] ∧
    (buildNextRound c8round 0).map (·.name) = some "Final Table" := by
  exact ⟨by decide, by decide⟩

/-! ### Dedup lemmas -/

theorem dedupByIdAux_prop : ∀ (seen : List String) (l : List Participant),
    ((dedupByIdAux seen l).map (·.id)).Nodup ∧
      ∀ p ∈ dedupByIdAux seen l, seen.contains p.id = false
  | _, [] => ⟨List.nodup_nil, by intro p hp; cases hp⟩
  | seen, p :: rest => by
    unfold dedupByIdAux
    by_cases h : seen.contains p.id = true
    · rw [if_pos h]
      obtain ⟨ih1, ih2⟩ := dedupByIdAux_prop seen rest
      exact ⟨ih1, ih2⟩
    · rw [if_neg h]
      obtain ⟨ih1, ih2⟩ := dedupByIdAux_prop (p.id :: seen) rest
      refine ⟨?_, ?_⟩
      · rw [List.map_cons, List.nodup_cons]
        refine ⟨?_, ih1⟩
        intro hmem
        rw [List.mem_map] at hmem
        obtain ⟨q, hq, hqid⟩ := hmem
        have hc := ih2 q hq
        rw [List.contains_cons, hqid] at hc
        simp at hc
      · intro q hq
        rcases List.mem_cons.mp hq with rfl | hq'
        · exact Bool.not_eq_true _ ▸ h |> fun _ => by
            revert h
            cases seen.contains q.id <;> simp
        · have hc := ih2 q hq'
          rw [List.contains_cons] at hc
          rcases Bool.or_eq_false_iff.mp hc with ⟨_, h2⟩
          exact h2

theorem dedupById_id_nodup (ps : List Participant) :
    ((dedupById ps).map (·.id)).Nodup :=
  (dedupByIdAux_prop [] ps).1

theorem getLast_filter_id (l : List Participant) (k : String) (dflt : Participant)
    (hd : dflt.id = k) :
    ((((l.filter (fun q => q.id = k)).getLast?).getD dflt)).id = k := by
  cases hl : (l.filter (fun q => q.id = k)).getLast? with
  | none => simpa using hd
  | some q =>
    have hq : q ∈ l.filter (fun q => q.id = k) := List.mem_of_mem_getLast? hl
    rw [List.mem_filter] at hq
    simpa using of_decide_eq_true hq.2

theorem jsMapValuesAux_prop (orig : List Participant) :
    ∀ (seen : List String) (l : List Participant),
      ((jsMapValuesAux orig seen l).map (·.id)).Nodup ∧
        ∀ q ∈ (jsMapValuesAux orig seen l).map (·.id), seen.contains q = false
  | _, [] => ⟨List.nodup_nil, by intro q hq; cases hq⟩
  | seen, p :: rest => by
    unfold jsMapValuesAux
    by_cases h : seen.contains p.id = true
    · rw [if_pos h]
      exact jsMapValuesAux_prop orig seen rest
    · rw [if_neg h]
      obtain ⟨ih1, ih2⟩ := jsMapValuesAux_prop orig (p.id :: seen) rest
      have hvid : ((((orig.filter (fun q => q.id = p.id)).getLast?).getD p)).id = p.id :=
        getLast_filter_id orig p.id p rfl
      refine ⟨?_, ?_⟩
      · rw [List.map_cons, List.nodup_cons, hvid]
        refine ⟨?_, ih1⟩
        intro hmem
        have hc := ih2 _ hmem
        rw [List.contains_cons] at hc
        simp at hc
      · intro q hq
        rw [List.map_cons, hvid] at hq
        rcases List.mem_cons.mp hq with rfl | hq'
        · revert h
          cases seen.contains p.id <;> simp
        · have hc := ih2 q hq'
          rw [List.contains_cons] at hc
          rcases Bool.or_eq_false_iff.mp hc with ⟨_, h2⟩
          exact h2

theorem jsMapValues_id_nodup (ps : List Participant) :
    ((jsMapValues ps).map (·.id)).Nodup :=
  (jsMapValuesAux_prop ps [] ps).1

/-! ### Routing lemmas for `buildNextRound` -/

theorem length_ne_zero_of_ne_nil {α : Type} {l : List α} (h : l ≠ []) :
    ¬(l.length = 0) := by
  rw [List.length_eq_zero]
  exact h

theorem buildNextRound_of_semifinal {prev : Round} (i : Nat)
    (hadv : (nextRoundFrom prev).1 ≠ []) (hname : prev.name = "Semifinal") :
    buildNextRound prev i = buildFinalFromSemifinal prev := by
  simp only [buildNextRound]
  rw [if_neg (length_ne_zero_of_ne_nil hadv), if_pos hname]

theorem buildNextRound_of_not_semifinal {prev : Round} (i : Nat)
    (hadv : (nextRoundFrom prev).1 ≠ []) (hname : prev.name ≠ "Semifinal") :
    buildNextRound prev i
      = match trySemifinal prev (nextRoundFrom prev).2 with
        | some r => some r
        | none =>
          if isSemifinalFormat prev then
            match tryFormatFinal prev with
            | some res => res
            | none => some (defaultPath (nextRoundFrom prev).1 (nextRoundFrom prev).2 i)
          else some (defaultPath (nextRoundFrom prev).1 (nextRoundFrom prev).2 i) := by
  simp only [buildNextRound]
  rw [if_neg (length_ne_zero_of_ne_nil hadv), if_neg hname]

theorem trySemifinal_fires {prev : Round} {thirds : List (Participant × Int)}
    (hname : prev.name ≠ "Semifinal")
    (hall : (prev.matchList.map computePlacements).all Option.isSome = true)
    (h9 : (semifinalPool prev thirds).length = 9) :
    trySemifinal prev thirds
      = some (mkRound "Semifinal" (semifinalGroups (semifinalPool prev thirds))) := by
  unfold trySemifinal
  rw [if_neg hname, if_pos hall, if_pos h9,
    List.take_of_length_le (le_of_eq h9)]

theorem trySemifinal_of_pool_ne {prev : Round} {thirds : List (Participant × Int)}
    (h9 : (semifinalPool prev thirds).length ≠ 9) :
    trySemifinal prev thirds = none := by
  unfold trySemifinal
  by_cases hname : prev.name = "Semifinal"
  · rw [if_pos hname]
  · rw [if_neg hname]
    by_cases hall : (prev.matchList.map computePlacements).all Option.isSome = true
    · rw [if_pos hall, if_neg h9]
    · rw [if_neg hall]

theorem round_prefix_ne (s : String) : "Round " ++ s ≠ "Semifinal" := by
  intro h
  have hd := congrArg String.data h
  rw [String.data_append] at hd
  have h1 : ("Round ").data = ['R', 'o', 'u', 'n', 'd', ' '] := rfl
  have h2 : ("Semifinal").data = ['S', 'e', 'm', 'i', 'f', 'i', 'n', 'a', 'l'] := rfl
  rw [h1, h2, List.cons_append] at hd
  injection hd with hd1 _
  exact absurd hd1 (by decide)

theorem defaultPath_name (advancers : List Participant)
    (thirds : List (Participant × Int)) (i : Nat) :
    (defaultPath advancers thirds i).name
      = if ((topUpGroups (distributeIntoGroups advancers) (sortPairs thirds)).map
            List.length).sum = 4
        then "Final Table" else "Round " ++ toString (i + 2) := by
  simp only [defaultPath, mkRound]

theorem defaultPath_name_ne_semifinal (advancers : List Participant)
    (thirds : List (Participant × Int)) (i : Nat) :
    (defaultPath advancers thirds i).name ≠ "Semifinal" := by
  rw [defaultPath_name]
  split
  · decide
  · exact round_prefix_ne _

theorem tryFormatFinal_some_name {prev : Round} {r : Round}
    (h : tryFormatFinal prev = some (some r)) : r.name = "Final Table" := by
  unfold tryFormatFinal at h
  by_cases h1 : semifinalRanked prev = true
  · rw [if_pos h1] at h
    by_cases h2 : (finalFour prev).length = 4
    · rw [if_pos h2] at h
      injection h with h
      injection h with h
      rw [← h]
      rfl
    · rw [if_neg h2] at h
      cases h
  · rw [if_neg h1] at h
    injection h with h
    cases h

theorem chunk4_len4 {α : Type} {l : List α} (h : l.length = 4) : chunk4 l = [l] := by
  match l with
  | [_, _, _, _] => rfl
  | [] => simp at h
  | [_] => simp at h
  | [_, _] => simp at h
  | [_, _, _] => simp at h
  | _ :: _ :: _ :: _ :: _ :: _ =>
    simp only [List.length_cons] at h
    omega

/-! ### Claim C1: semifinal formation -/

/-- Claim C1: for a previous round not named "Semifinal" whose matches are
all complete, with a non-empty advancers list: if the priority pool
(unique winners, then seconds sorted by points desc/name, then thirds,
skipping seen ids) has exactly 9 members, `buildNextRound` emits a round
named "Semifinal" of 3 matches of 3, the groups being contiguous slices of
the pool in pool order, with no duplicate identities; if the pool size is
not 9, no round named "Semifinal" is emitted at all. -/
theorem c1_semifinal_formation (prev : Round) (i : Nat)
    (hname : prev.name ≠ "Semifinal")
    (hcomp : ∀ m ∈ prev.matchList, (computePlacements m).isSome = true)
    (hadv : (nextRoundFrom prev).1 ≠ []) :
    ((semifinalPool prev (nextRoundFrom prev).2).length = 9 →
      buildNextRound prev i
        = some (mkRound "Semifinal"
            (semifinalGroups (semifinalPool prev (nextRoundFrom prev).2))) ∧
      (semifinalGroups (semifinalPool prev (nextRoundFrom prev).2)).map List.length
        = [3, 3, 3] ∧
      (semifinalGroups (semifinalPool prev (nextRoundFrom prev).2)).flatten
        = semifinalPool prev (nextRoundFrom prev).2 ∧
      ((semifinalPool prev (nextRoundFrom prev).2).map (·.id)).Nodup) ∧
    ((semifinalPool prev (nextRoundFrom prev).2).length ≠ 9 →
      ∀ r, buildNextRound prev i = some r → r.name ≠ "Semifinal") := by
  have hall : (prev.matchList.map computePlacements).all Option.isSome = true := by
    rw [List.all_eq_true]
    intro cm hcm
    rw [List.mem_map] at hcm
    obtain ⟨m, hm, rfl⟩ := hcm
    exact hcomp m hm
  have hrange : List.range 3 = [0, 1, 2] := rfl
  constructor
  · intro h9
    refine ⟨?_, ?_, ?_, ?_⟩
    · rw [buildNextRound_of_not_semifinal i hadv hname,
        trySemifinal_fires hname hall h9]
    · simp [semifinalGroups, hrange, List.length_take, List.length_drop, h9]
    · simp only [semifinalGroups, hrange, List.map_cons, List.map_nil,
        List.flatten_cons, List.flatten_nil, Nat.mul_zero, Nat.mul_one,
        List.drop_zero, List.append_nil]
      conv_rhs =>
        rw [← List.take_of_length_le (le_of_eq h9),
          show (9 : Nat) = 3 + 6 from rfl, List.take_add,
          show (6 : Nat) = 3 + 3 from rfl, List.take_add, List.drop_drop]
    · exact dedupById_id_nodup _
  · intro h9 r hr hrname
    rw [buildNextRound_of_not_semifinal i hadv hname,
      trySemifinal_of_pool_ne h9] at hr
    dsimp only at hr
    by_cases hfmt : isSemifinalFormat prev = true
    · rw [if_pos hfmt] at hr
      cases hff : tryFormatFinal prev with
      | none =>
        rw [hff] at hr
        dsimp only at hr
        injection hr with hr2
        rw [← hr2] at hrname
        exact defaultPath_name_ne_semifinal _ _ _ hrname
      | some res =>
        rw [hff] at hr
        dsimp only at hr
        cases res with
        | none => cases hr
        | some r2 =>
          injection hr with hr2
          have hft := tryFormatFinal_some_name hff
          rw [hr2] at hft
          exact absurd (hft.symm.trans hrname) (by decide)
    · rw [if_neg hfmt] at hr
      injection hr with hr2
      rw [← hr2] at hrname
      exact defaultPath_name_ne_semifinal _ _ _ hrname

/-- Witness for C1 at the concrete round `c1round` (pool
[A,D,G,B,E,H,C,F,I], so the Semifinal is [[A,D,G],[B,E,H],[C,F,I]]). -/
theorem c1_witness :
    (semifinalPool c1round (nextRoundFrom c1round).2).length = 9 ∧
    buildNextRound c1round 0
      = some (mkRound "Semifinal"
          (semifinalGroups (semifinalPool c1round (nextRoundFrom c1round).2))) ∧
    semifinalGroups (semifinalPool c1round (nextRoundFrom c1round).2)
      = [ [{ id := "a", name := "A" }, { id := "d", name := "D" }, { id := "g", name := "G" }],
          [{ id := "b", name := "B" }, { id := "e", name := "E" }, { id := "h", name := "H" }],
          [{ id := "c", name := "C" }, { id := "f", name := "F" }, { id := "i", name := "I" }] ] :=
  ⟨by decide,
   ((c1_semifinal_formation c1round 0 (by decide) (by decide) (by decide)).1 (by decide)).1,
   by decide⟩

/-! ### Claim C2: Semifinal to Final Table -/

/-- Claim C2: for a previous round named "Semifinal" with a non-empty
advancers list: when every match is complete with at least 2 placements,
the winners plus the single best second, deduplicated by identity, give —
if exactly 4 — a round named "Final Table" with one match of those 4
(duplicate-free by id); otherwise, or when some match lacks 2 placements,
`buildNextRound` returns null. -/
theorem c2_semifinal_to_final (prev : Round) (i : Nat)
    (hname : prev.name = "Semifinal")
    (hadv : (nextRoundFrom prev).1 ≠ []) :
    (semifinalRanked prev = true →
      ((finalFour prev).length = 4 →
        buildNextRound prev i = some (mkRound "Final Table" [finalFour prev]) ∧
        ((finalFour prev).map (·.id)).Nodup) ∧
      ((finalFour prev).length ≠ 4 → buildNextRound prev i = none)) ∧
    (semifinalRanked prev = false → buildNextRound prev i = none) := by
  have hroute := buildNextRound_of_semifinal i hadv hname
  constructor
  · intro hrk
    constructor
    · intro h4
      constructor
      · rw [hroute]
        unfold buildFinalFromSemifinal
        rw [if_pos hrk, if_pos h4, chunk4_len4 h4]
      · exact jsMapValues_id_nodup _
    · intro h4
      rw [hroute]
      unfold buildFinalFromSemifinal
      rw [if_pos hrk, if_neg h4]
  · intro hrk
    rw [hroute]
    unfold buildFinalFromSemifinal
    simp [hrk]

/-- Witness for C2 at the completed Semifinal `c2semi`:
winners SA, SD, SG plus best second SE form the Final Table. -/
theorem c2_witness :
    (nextRoundFrom c2semi).1 ≠ [] ∧
    semifinalRanked c2semi = true ∧
    (finalFour c2semi).length = 4 ∧
    finalFour c2semi
      = [ { id := "s1", name := "SA" }, { id := "s4", name := "SD" },
          { id := "s7", name := "SG" }, { id := "s5", name := "SE" } ] ∧
    buildNextRound c2semi 2 = some (mkRound "Final Table" [finalFour c2semi]) :=
  ⟨by decide, by decide, by decide, by decide,
   (((c2_semifinal_to_final c2semi 2 rfl (by decide)).1 (by decide)).1 (by decide)).1⟩

/-! ### Claim C4: the default path -/

theorem topUpGroups_length :
    ∀ (gs : List (List Participant)) (rem : List (Participant × Int)),
      (topUpGroups gs rem).length = gs.length
  | [], _ => rfl
  | g :: gs, rem => by
    unfold topUpGroups
    by_cases h : 4 ≤ g.length
    · rw [if_pos h]
      simp [topUpGroups_length gs rem]
    · rw [if_neg h]
      simp [topUpGroups_length gs (rem.drop (4 - g.length))]

theorem topUpGroups_extend :
    ∀ (gs : List (List Participant)) (rem : List (Participant × Int)),
      List.Forall₂ (fun t g => ∃ add, t = g ++ add) (topUpGroups gs rem) gs
  | [], _ => List.Forall₂.nil
  | g :: gs, rem => by
    unfold topUpGroups
    by_cases h : 4 ≤ g.length
    · rw [if_pos h]
      exact List.Forall₂.cons ⟨[], (List.append_nil g).symm⟩ (topUpGroups_extend gs rem)
    · rw [if_neg h]
      exact List.Forall₂.cons ⟨_, rfl⟩ (topUpGroups_extend gs _)

theorem topUpGroups_consumed :
    ∀ (gs : List (List Participant)) (rem : List (Participant × Int)),
      (List.zipWith (fun t g => t.drop g.length) (topUpGroups gs rem) gs).flatten
        = (rem.take ((gs.map groupNeed).sum)).map (·.1)
  | [], rem => by simp [topUpGroups]
  | g :: gs, rem => by
    unfold topUpGroups
    by_cases h : 4 ≤ g.length
    · rw [if_pos h, List.zipWith_cons_cons, List.flatten_cons, List.drop_length,
        topUpGroups_consumed gs rem]
      simp [groupNeed, h]
    · rw [if_neg h, List.zipWith_cons_cons, List.flatten_cons, List.drop_left,
        topUpGroups_consumed gs (rem.drop (4 - g.length))]
      have hsum : ((g :: gs).map groupNeed).sum
          = (4 - g.length) + (gs.map groupNeed).sum := by
        simp [groupNeed, h]
      rw [hsum, List.take_add, List.map_append]

theorem sum_length_le_of_extend :
    ∀ {ts gs : List (List Participant)},
      List.Forall₂ (fun t g => ∃ add, t = g ++ add) ts gs →
      (gs.map List.length).sum ≤ (ts.map List.length).sum := by
  intro ts gs h
  induction h with
  | nil => exact Nat.le_refl 0
  | cons hpair _ ih =>
    obtain ⟨add, rfl⟩ := hpair
    simp only [List.map_cons, List.sum_cons, List.length_append]
    omega

/-- Claim C4: whenever the earlier special rules fall through (pool rule
returned nothing; semifinal-format branch, if it fired, fell through) and
advancers are non-empty, `buildNextRound` runs the default path: the
advancers are grouped by the Grouping Policy, every group keeps its
original members as a prefix, the players added across all groups are
exactly a prefix of the thirds sorted by points descending (name
tie-break) — so each third is consumed at most once — the round is named
"Final Table" exactly when the group sizes sum to 4 (whatever
`roundIndex`), else "Round (roundIndex + 2)", and a round is emitted even
when the thirds run out (the group simply stays undersized). -/
theorem c4_default_path (prev : Round) (i : Nat)
    (hname : prev.name ≠ "Semifinal")
    (hadv : (nextRoundFrom prev).1 ≠ [])
    (htry : trySemifinal prev (nextRoundFrom prev).2 = none)
    (hfmt : isSemifinalFormat prev = true → tryFormatFinal prev = none) :
    buildNextRound prev i
      = some (defaultPath (nextRoundFrom prev).1 (nextRoundFrom prev).2 i) ∧
    (defaultPath (nextRoundFrom prev).1 (nextRoundFrom prev).2 i).matchList
      = (topUpGroups (distributeIntoGroups (nextRoundFrom prev).1)
          (sortPairs (nextRoundFrom prev).2)).map mkMatch ∧
    (defaultPath (nextRoundFrom prev).1 (nextRoundFrom prev).2 i).name
      = (if ((topUpGroups (distributeIntoGroups (nextRoundFrom prev).1)
              (sortPairs (nextRoundFrom prev).2)).map List.length).sum = 4
         then "Final Table" else "Round " ++ toString (i + 2)) ∧
    (topUpGroups (distributeIntoGroups (nextRoundFrom prev).1)
        (sortPairs (nextRoundFrom prev).2)).length
      = (distributeIntoGroups (nextRoundFrom prev).1).length ∧
    List.Forall₂ (fun t g => ∃ add, t = g ++ add)
      (topUpGroups (distributeIntoGroups (nextRoundFrom prev).1)
        (sortPairs (nextRoundFrom prev).2))
      (distributeIntoGroups (nextRoundFrom prev).1) ∧
    (List.zipWith (fun t g => t.drop g.length)
        (topUpGroups (distributeIntoGroups (nextRoundFrom prev).1)
          (sortPairs (nextRoundFrom prev).2))
        (distributeIntoGroups (nextRoundFrom prev).1)).flatten
      = ((sortPairs (nextRoundFrom prev).2).take
          (((distributeIntoGroups (nextRoundFrom prev).1).map groupNeed).sum)).map (·.1) ∧
    (((topUpGroups (distributeIntoGroups (nextRoundFrom prev).1)
          (sortPairs (nextRoundFrom prev).2)).map List.length).sum = 4 →
      (topUpGroups (distributeIntoGroups (nextRoundFrom prev).1)
          (sortPairs (nextRoundFrom prev).2)).length = 1) := by
  refine ⟨?_, ?_, defaultPath_name _ _ _, topUpGroups_length _ _,
    topUpGroups_extend _ _, topUpGroups_consumed _ _, ?_⟩
  · rw [buildNextRound_of_not_semifinal i hadv hname, htry]
    dsimp only
    by_cases hf : isSemifinalFormat prev = true
    · rw [if_pos hf, hfmt hf]
    · rw [if_neg hf]
  · simp only [defaultPath, mkRound]
  · intro hsum4
    have hN0 : (nextRoundFrom prev).1.length ≠ 0 := length_ne_zero_of_ne_nil hadv
    have horig := distributeIntoGroups_sum hN0
    have hmono := sum_length_le_of_extend
      (topUpGroups_extend (distributeIntoGroups (nextRoundFrom prev).1)
        (sortPairs (nextRoundFrom prev).2))
    rw [topUpGroups_length, distributeIntoGroups_length hN0,
      groupCount_eq_one (by omega) (by omega)]

/-- Witness for C4 at `c4round` with roundIndex 3: groups [3,3] are topped
up to [4,3] (the single third U3 fills the first; the second stays
undersized), total 7 ≠ 4, so the round is "Round 5". -/
theorem c4_witness :
    trySemifinal c4round (nextRoundFrom c4round).2 = none ∧
    isSemifinalFormat c4round = false ∧
    buildNextRound c4round 3
      = some (defaultPath (nextRoundFrom c4round).1 (nextRoundFrom c4round).2 3) ∧
    (defaultPath (nextRoundFrom c4round).1 (nextRoundFrom c4round).2 3).name
      = "Round 5" ∧
    (topUpGroups (distributeIntoGroups (nextRoundFrom c4round).1)
        (sortPairs (nextRoundFrom c4round).2)).map List.length = [4, 3] :=
  ⟨by decide, by decide,
   (c4_default_path c4round 3 (by decide) (by decide) (by decide)
     (fun h => absurd h (by decide))).1,
   by decide, by decide⟩

